import Mathlib

/-!
Verification of the GLL sentence decoder (`src/sentences/gll.rs` of the
`nmea` crate) against its specification.

The decoder is embedded shallowly: the payload is a list of characters,
nom's `IResult<&[u8], T>` becomes `Except NomError (Input × T)`, and each
nom combinator used by `do_parse_gll` (`char`, `one_of`, `take_until`,
`map`, `opt`) is given its documented semantics on lists.  The collaborator
functions `do_parse_lat_lon` and `parse_hms` (from `sentences/utils.rs`)
and the framing types `NmeaSentence` / `NmeaError` (from `parse.rs`) are
not part of the sources; they are modelled from the specification, as
marked in their doc comments.  Coordinates are represented as exact
rationals (`ℚ`) in place of `f64`.
-/

namespace Nmea

/-- The remaining unparsed input: a list of payload characters. -/
abbrev Input := List Char

/-- The nom error kinds produced by the combinators used in `do_parse_gll`. -/
inductive NomErrorKind where
  | Char
  | OneOf
  | TakeUntil
  | MapRes
  deriving DecidableEq, Repr

/-- A nom parse error: the input at the failure point and the failing
combinator's kind. -/
structure NomError where
  input : Input
  kind : NomErrorKind
  deriving DecidableEq, Repr

/-- Shallow embedding of nom's `IResult<&[u8], T>`: either the remaining
input paired with the parsed value, or an error. -/
abbrev IResult (T : Type) := Except NomError (Input × T)

/-- nom's `char(c)`: consume exactly the character `c`, otherwise error. -/
def charP (c : Char) : Input → IResult Char
  | [] => .error ⟨[], .Char⟩
  | x :: xs => if x = c then .ok (xs, c) else .error ⟨x :: xs, .Char⟩

/-- nom's `one_of(s)`: consume one character that is a member of `s`. -/
def oneOf (s : List Char) : Input → IResult Char
  | [] => .error ⟨[], .OneOf⟩
  | x :: xs => if x ∈ s then .ok (xs, x) else .error ⟨x :: xs, .OneOf⟩

/-- Helper for `take_until(",")`: split the input at the first comma,
returning the comma-free part before it and the rest starting at the
comma; `none` when the input has no comma. -/
def splitAtComma : Input → Option (Input × Input)
  | [] => none
  | c :: rest =>
    if c = ',' then some ([], c :: rest)
    else
      match splitAtComma rest with
      | none => none
      | some (a, b) => some (c :: a, b)

/-- nom's `take_until(",")`: consume (and return) everything up to, but not
including, the first comma; error when no comma occurs. -/
def takeUntilComma (i : Input) : IResult Input :=
  match splitAtComma i with
  | none => .error ⟨i, .TakeUntil⟩
  | some (a, b) => .ok (b, a)

/-- nom's `map(p, f)`: run `p`, apply `f` to its value. -/
def mapP {α β : Type} (p : Input → IResult α) (f : α → β) (i : Input) : IResult β :=
  match p i with
  | .error e => .error e
  | .ok (r, v) => .ok (r, f v)

/-- nom's `opt(p)`: run `p`; on error, succeed with `none` consuming
nothing; on success wrap the value in `some`. -/
def optP {α : Type} (p : Input → IResult α) (i : Input) : IResult (Option α) :=
  match p i with
  | .error _ => .ok (i, none)
  | .ok (r, v) => .ok (r, some v)

/-- Positioning System Mode Indicator (present from NMEA >= 2.3). -/
inductive PosSystemIndicator where
  | Autonomous
  | Differential
  | EstimatedMode
  | ManualInput
  | DataNotValid
  deriving DecidableEq, Repr

/-- Embedding of `impl From<char> for PosSystemIndicator`. -/
def PosSystemIndicator.fromChar (b : Char) : PosSystemIndicator :=
  match b with
  | 'A' => PosSystemIndicator.Autonomous
  | 'D' => PosSystemIndicator.Differential
  | 'E' => PosSystemIndicator.EstimatedMode
  | 'M' => PosSystemIndicator.ManualInput
  | 'N' => PosSystemIndicator.DataNotValid
  | _ => PosSystemIndicator.DataNotValid

/-- GLL data status: A = valid, V = invalid. -/
inductive GLLDataStatus where
  | Valid
  | Invalid
  deriving DecidableEq, Repr

/-- Embedding of `impl From<char> for GLLDataStatus`. -/
def GLLDataStatus.fromChar (b : Char) : GLLDataStatus :=
  match b with
  | 'A' => GLLDataStatus.Valid
  | _ => GLLDataStatus.Invalid

/-- Time of day (chrono's `NaiveTime` restricted to what the decoder
produces): hours, minutes, seconds and milliseconds. -/
structure NaiveTime where
  hour : Nat
  minute : Nat
  second : Nat
  milli : Nat
  deriving DecidableEq, Repr

/-- The decoded GLL record (`GllData` in the source), with `f64`
coordinates represented as exact rationals. -/
structure GllData where
  latitude : ℚ
  longitude : ℚ
  fix_time : NaiveTime
  data_state : GLLDataStatus
  mode : Option PosSystemIndicator
  deriving DecidableEq, Repr

/-- Numeric value of a digit character. -/
def digitVal : Char → Nat
  | '0' => 0
  | '1' => 1
  | '2' => 2
  | '3' => 3
  | '4' => 4
  | '5' => 5
  | '6' => 6
  | '7' => 7
  | '8' => 8
  | '9' => 9
  | _ => 0

/-- Numeric value of a digit string, most significant first. -/
def digitsVal : Input → Nat
  | [] => 0
  | c :: rest => digitVal c * 10 ^ rest.length + digitsVal rest

/-- Split a token at its first dot: the part before it, and the optional
part after it. -/
def splitAtDot : Input → Input × Option Input
  | [] => ([], none)
  | c :: rest =>
    if c = '.' then ([], some rest)
    else
      let (a, b) := splitAtDot rest
      (c :: a, b)

/-- Modelled from the spec: the token grammar of the shared lat/lon decoder
(`sentences/utils.rs`, not in the sources).  A coordinate token is a
nonempty digit string optionally followed by a dot and a digit string
(`DDmm.mm` / `DDDmm.mm`); the integer and fractional digit strings are
returned, `none` when the token is malformed. -/
def parseCoordTok (tok : Input) : Option (Input × Input) :=
  match splitAtDot tok with
  | (ip, none) =>
    if ip ≠ [] ∧ ip.all Char.isDigit then some (ip, []) else none
  | (ip, some fp) =>
    if ip ≠ [] ∧ ip.all Char.isDigit ∧ fp.all Char.isDigit then some (ip, fp)
    else none

/-- Modelled from the spec: conversion law of the shared lat/lon decoder —
in `DDmm.mm` the integer digits hold degrees in all but the last two
positions and minutes in the last two, the fractional digits extend the
minutes; value = degrees + minutes/60, sign flipped when the hemisphere
letter is the negative one (`S` / `W`). -/
def coordVal (ip fp : Input) (dir neg : Char) : ℚ :=
  let deg : ℚ := digitsVal (ip.take (ip.length - 2))
  let minutes : ℚ :=
    (digitsVal (ip.drop (ip.length - 2)) : ℚ) + (digitsVal fp : ℚ) / (10 : ℚ) ^ fp.length
  let v := deg + minutes / 60
  if dir = neg then -v else v

/-- Modelled from the spec: the shared lat/lon decoder of
`sentences/utils.rs` (not in the sources).  It consumes
`DDmm.mm,H,DDDmm.mm,H` (H = hemisphere letter, `N`/`S` then `E`/`W`) and
returns signed degrees for both axes: value = degrees + minutes/60,
North/East positive, South/West negative. -/
def do_parse_lat_lon (i : Input) : IResult (ℚ × ℚ) :=
  match takeUntilComma i with
  | .error e => .error e
  | .ok (i, latTok) =>
    match charP ',' i with
    | .error e => .error e
    | .ok (i, _) =>
      match oneOf ['N', 'S'] i with
      | .error e => .error e
      | .ok (i, latDir) =>
        match charP ',' i with
        | .error e => .error e
        | .ok (i, _) =>
          match takeUntilComma i with
          | .error e => .error e
          | .ok (i, lonTok) =>
            match charP ',' i with
            | .error e => .error e
            | .ok (i, _) =>
              match oneOf ['E', 'W'] i with
              | .error e => .error e
              | .ok (i, lonDir) =>
                match parseCoordTok latTok, parseCoordTok lonTok with
                | some (lai, laf), some (loi, lof) =>
                  .ok (i, (coordVal lai laf latDir 'S', coordVal loi lof lonDir 'W'))
                | _, _ => .error ⟨i, .MapRes⟩

/-- Modelled from the spec: the shared time-of-day decoder `parse_hms` of
`sentences/utils.rs` (not in the sources).  It consumes the six digits
`HHMMSS` of a fix-time token and returns the time of day; the fractional
suffix is left in the input — the GLL decoder discards it together with
the rest of the field (`// decimal ignored` in the source). -/
def parse_hms : Input → IResult NaiveTime
  | h1 :: h2 :: m1 :: m2 :: s1 :: s2 :: rest =>
    if h1.isDigit && h2.isDigit && m1.isDigit && m2.isDigit && s1.isDigit && s2.isDigit then
      if 10 * digitVal h1 + digitVal h2 < 24 && 10 * digitVal m1 + digitVal m2 < 60
          && 10 * digitVal s1 + digitVal s2 < 60 then
        .ok (rest, ⟨10 * digitVal h1 + digitVal h2, 10 * digitVal m1 + digitVal m2,
          10 * digitVal s1 + digitVal s2, 0⟩)
      else .error ⟨h1 :: h2 :: m1 :: m2 :: s1 :: s2 :: rest, .MapRes⟩
    else .error ⟨h1 :: h2 :: m1 :: m2 :: s1 :: s2 :: rest, .MapRes⟩
  | i => .error ⟨i, .MapRes⟩

/-- The status field parser: `map(one_of("AV"), GLLDataStatus::from)`
(`// A: valid, V: invalid`). -/
def statusP : Input → IResult GLLDataStatus :=
  mapP (oneOf ['A', 'V']) GLLDataStatus.fromChar

/-- The mode field parser:
`opt(map(one_of("ADEM"), PosSystemIndicator::from))`
(`// ignore 'N' for invalid`). -/
def modeP : Input → IResult (Option PosSystemIndicator) :=
  optP (mapP (oneOf ['A', 'D', 'E', 'M']) PosSystemIndicator.fromChar)

/-- Embedding of `do_parse_gll` of `src/sentences/gll.rs`, stage for stage:
lat/lon pair, `','`, fix time, ignored decimal trailer, `','`, data
status, `','`, optional mode. -/
def do_parse_gll (i : Input) : IResult GllData :=
  match do_parse_lat_lon i with
  | .error e => .error e
  | .ok (i, (latitude, longitude)) =>
    match charP ',' i with
    | .error e => .error e
    | .ok (i, _) =>
      match parse_hms i with
      | .error e => .error e
      | .ok (i, fix_time) =>
        match takeUntilComma i with
        | .error e => .error e
        | .ok (i, _) =>
          match charP ',' i with
          | .error e => .error e
          | .ok (i, _) =>
            match statusP i with
            | .error e => .error e
            | .ok (i, data_state) =>
              match charP ',' i with
              | .error e => .error e
              | .ok (i, _) =>
                match modeP i with
                | .error e => .error e
                | .ok (i, mode) =>
                  .ok (i, ⟨latitude, longitude, fix_time, data_state, mode⟩)

/-- Modelled from the spec: the framer's output (`NmeaSentence` of
`parse.rs`, not in the sources) — a message identifier and the data
payload; the checksum is external. -/
structure NmeaSentence where
  message_id : Input
  data : Input

/-- Modelled from the spec: the error type (`NmeaError` of `parse.rs`, not
in the sources) — an identity-mismatch error carrying expected and found
identifiers, or a structured parse error wrapping the nom error. -/
inductive NmeaError where
  | WrongSentenceHeader (expected found : Input)
  | ParsingError (e : NomError)
  deriving DecidableEq, Repr

/-- Embedding of `parse_gll` of `src/sentences/gll.rs`: reject a message identifier
other than `"GLL"`, otherwise run `do_parse_gll` on the payload and keep
the parsed record, discarding the leftover input. -/
def parse_gll (sentence : NmeaSentence) : Except NmeaError GllData :=
  if sentence.message_id ≠ ['G', 'L', 'L'] then
    .error (.WrongSentenceHeader ['G', 'L', 'L'] sentence.message_id)
  else
    match do_parse_gll sentence.data with
    | .error e => .error (.ParsingError e)
    | .ok (_, d) => .ok d

/-! ## Stage views of `do_parse_gll`

`do_parse_gll` is a straight-line cascade.  The following definitions name
its intermediate positions (the parser state after a given field), and the
lemmas below show that `do_parse_gll` factors through them.  They are the
workhorses for the field-level claims. -/

/-- The decode up to and including the fix time: lat/lon pair, `','`,
`parse_hms`. -/
def gllTimeP (i : Input) : IResult ((ℚ × ℚ) × NaiveTime) :=
  match do_parse_lat_lon i with
  | .error e => .error e
  | .ok (i, ll) =>
    match charP ',' i with
    | .error e => .error e
    | .ok (i, _) =>
      match parse_hms i with
      | .error e => .error e
      | .ok (i, t) => .ok (i, (ll, t))

/-- The decode up to the status position: `gllTimeP`, then the ignored
decimal trailer and its separator. -/
def gllStatusPos (i : Input) : IResult ((ℚ × ℚ) × NaiveTime) :=
  match gllTimeP i with
  | .error e => .error e
  | .ok (i, v) =>
    match takeUntilComma i with
    | .error e => .error e
    | .ok (i, _) =>
      match charP ',' i with
      | .error e => .error e
      | .ok (i, _) => .ok (i, v)

/-- The decode up to the mode position: `gllStatusPos`, then the status
field and its separator. -/
def gllModePos (i : Input) : IResult (((ℚ × ℚ) × NaiveTime) × GLLDataStatus) :=
  match gllStatusPos i with
  | .error e => .error e
  | .ok (i, v) =>
    match statusP i with
    | .error e => .error e
    | .ok (i, st) =>
      match charP ',' i with
      | .error e => .error e
      | .ok (i, _) => .ok (i, (v, st))

/-- The rest of the decode from the mode position on. -/
def gllAtMode (la lo : ℚ) (t : NaiveTime) (st : GLLDataStatus) (i : Input) :
    IResult GllData :=
  match modeP i with
  | .error e => .error e
  | .ok (i, mode) => .ok (i, ⟨la, lo, t, st, mode⟩)

/-- The rest of the decode from the status position on. -/
def gllAtStatus (la lo : ℚ) (t : NaiveTime) (i : Input) : IResult GllData :=
  match statusP i with
  | .error e => .error e
  | .ok (i, st) =>
    match charP ',' i with
    | .error e => .error e
    | .ok (i, _) => gllAtMode la lo t st i

/-- The rest of the decode from just after the fix time on. -/
def gllAfterTime (la lo : ℚ) (t : NaiveTime) (i : Input) : IResult GllData :=
  match takeUntilComma i with
  | .error e => .error e
  | .ok (i, _) =>
    match charP ',' i with
    | .error e => .error e
    | .ok (i, _) => gllAtStatus la lo t i

theorem do_parse_gll_factor_time (i r : Input) (la lo : ℚ) (t : NaiveTime)
    (h : gllTimeP i = .ok (r, ((la, lo), t))) :
    do_parse_gll i = gllAfterTime la lo t r := by
  unfold gllTimeP at h
  cases h1 : do_parse_lat_lon i with
  | error e => simp only [h1] at h; exact Except.noConfusion h
  | ok p =>
    obtain ⟨i1, la1, lo1⟩ := p
    simp only [h1] at h
    cases h2 : charP ',' i1 with
    | error e => simp only [h2] at h; exact Except.noConfusion h
    | ok p2 =>
      obtain ⟨i2, c⟩ := p2
      simp only [h2] at h
      cases h3 : parse_hms i2 with
      | error e => simp only [h3] at h; exact Except.noConfusion h
      | ok p3 =>
        obtain ⟨i3, t3⟩ := p3
        simp only [h3, Except.ok.injEq, Prod.mk.injEq] at h
        obtain ⟨hi, ⟨hla, hlo⟩, ht⟩ := h
        subst hi hla hlo ht
        simp only [do_parse_gll, gllAfterTime, gllAtStatus, gllAtMode, h1, h2, h3]

theorem do_parse_gll_factor_status (i r : Input) (la lo : ℚ) (t : NaiveTime)
    (h : gllStatusPos i = .ok (r, ((la, lo), t))) :
    do_parse_gll i = gllAtStatus la lo t r := by
  unfold gllStatusPos at h
  cases h1 : gllTimeP i with
  | error e => simp only [h1] at h; exact Except.noConfusion h
  | ok p =>
    obtain ⟨i1, ll1, t1⟩ := p
    obtain ⟨la1, lo1⟩ := ll1
    simp only [h1] at h
    rw [do_parse_gll_factor_time i i1 la1 lo1 t1 h1]
    cases h2 : takeUntilComma i1 with
    | error e => simp only [h2] at h; exact Except.noConfusion h
    | ok p2 =>
      obtain ⟨i2, tr⟩ := p2
      simp only [h2] at h
      cases h3 : charP ',' i2 with
      | error e => simp only [h3] at h; exact Except.noConfusion h
      | ok p3 =>
        obtain ⟨i3, c⟩ := p3
        simp only [h3, Except.ok.injEq, Prod.mk.injEq] at h
        obtain ⟨hi, ⟨hla, hlo⟩, ht⟩ := h
        subst hi hla hlo ht
        simp only [gllAfterTime, h2, h3]

theorem do_parse_gll_factor_mode (i r : Input) (la lo : ℚ) (t : NaiveTime)
    (st : GLLDataStatus)
    (h : gllModePos i = .ok (r, (((la, lo), t), st))) :
    do_parse_gll i = gllAtMode la lo t st r := by
  unfold gllModePos at h
  cases h1 : gllStatusPos i with
  | error e => simp only [h1] at h; exact Except.noConfusion h
  | ok p =>
    obtain ⟨i1, ll1, t1⟩ := p
    obtain ⟨la1, lo1⟩ := ll1
    simp only [h1] at h
    rw [do_parse_gll_factor_status i i1 la1 lo1 t1 h1]
    cases h2 : statusP i1 with
    | error e => simp only [h2] at h; exact Except.noConfusion h
    | ok p2 =>
      obtain ⟨i2, st2⟩ := p2
      simp only [h2] at h
      cases h3 : charP ',' i2 with
      | error e => simp only [h3] at h; exact Except.noConfusion h
      | ok p3 =>
        obtain ⟨i3, c⟩ := p3
        simp only [h3, Except.ok.injEq, Prod.mk.injEq] at h
        obtain ⟨hi, ⟨⟨hla, hlo⟩, ht⟩, hst⟩ := h
        subst hi hla hlo ht hst
        simp only [gllAtStatus, h2, h3]

/-! ## Field-level characterizations -/

theorem statusP_cons_A (s : Input) : statusP ('A' :: s) = .ok (s, .Valid) := rfl

theorem statusP_cons_V (s : Input) : statusP ('V' :: s) = .ok (s, .Invalid) := rfl

theorem statusP_cons_outside (c : Char) (s : Input) (hA : c ≠ 'A') (hV : c ≠ 'V') :
    statusP (c :: s) = .error ⟨c :: s, .OneOf⟩ := by
  simp [statusP, mapP, oneOf, hA, hV]

theorem statusP_nil : statusP [] = .error ⟨[], .OneOf⟩ := rfl

theorem modeP_nil : modeP [] = .ok ([], none) := rfl

theorem modeP_cons_A (s : Input) : modeP ('A' :: s) = .ok (s, some .Autonomous) := rfl

theorem modeP_cons_D (s : Input) : modeP ('D' :: s) = .ok (s, some .Differential) := rfl

theorem modeP_cons_E (s : Input) : modeP ('E' :: s) = .ok (s, some .EstimatedMode) := rfl

theorem modeP_cons_M (s : Input) : modeP ('M' :: s) = .ok (s, some .ManualInput) := rfl

theorem modeP_cons_outside (c : Char) (s : Input)
    (h : c ∉ (['A', 'D', 'E', 'M'] : List Char)) :
    modeP (c :: s) = .ok (c :: s, none) := by
  simp only [List.mem_cons, List.mem_singleton, not_or] at h
  obtain ⟨hA, hD, hE, hM⟩ := h
  simp [modeP, optP, mapP, oneOf, hA, hD, hE, hM]

/-- The mode field parser never fails, whatever the input. -/
theorem modeP_total (i : Input) : ∃ r m, modeP i = .ok (r, m) := by
  unfold modeP optP
  cases h : mapP (oneOf ['A', 'D', 'E', 'M']) PosSystemIndicator.fromChar i with
  | error e => exact ⟨i, none, rfl⟩
  | ok p => exact ⟨p.1, some p.2, rfl⟩

/-- The mode value produced by the mode parser is never `DataNotValid`:
the alternative only accepts `A`, `D`, `E`, `M`. -/
theorem modeP_ok_not_dnv (i r : Input) (m : Option PosSystemIndicator)
    (h : modeP i = .ok (r, m)) : m ≠ some .DataNotValid := by
  unfold modeP optP mapP at h
  cases i with
  | nil =>
    simp only [oneOf] at h
    simp only [Except.ok.injEq, Prod.mk.injEq] at h
    obtain ⟨-, hm⟩ := h
    simp [← hm]
  | cons c s =>
    simp only [oneOf] at h
    by_cases hc : c ∈ (['A', 'D', 'E', 'M'] : List Char)
    · simp only [if_pos hc, Except.ok.injEq, Prod.mk.injEq] at h
      obtain ⟨-, hm⟩ := h
      simp only [List.mem_cons, List.mem_singleton, List.not_mem_nil, or_false] at hc
      rcases hc with hc | hc | hc | hc
      all_goals subst hc
      all_goals simp [← hm, PosSystemIndicator.fromChar]
    · simp only [if_neg hc, Except.ok.injEq, Prod.mk.injEq] at h
      obtain ⟨-, hm⟩ := h
      simp [← hm]

theorem splitAtComma_of_not_mem (t s : Input) (h : ',' ∉ t) :
    splitAtComma (t ++ ',' :: s) = some (t, ',' :: s) := by
  induction t with
  | nil => simp [splitAtComma]
  | cons c rest ih =>
    have hc : c ≠ ',' := by
      intro hcc
      exact h (hcc ▸ List.mem_cons_self c rest)
    have hrest : ',' ∉ rest := fun hm => h (List.mem_cons_of_mem c hm)
    simp [splitAtComma, hc, ih hrest]

theorem takeUntilComma_of_not_mem (t s : Input) (h : ',' ∉ t) :
    takeUntilComma (t ++ ',' :: s) = .ok (',' :: s, t) := by
  simp [takeUntilComma, splitAtComma_of_not_mem t s h]

/-! ## The decode as a cascade: success and first-error shapes -/

/-- All eight stages of `do_parse_gll` succeed in left-to-right order, the
record's five fields are exactly the stage outputs, and `r` is the input
left after the last stage. -/
def GllStagesOk (i r : Input) (d : GllData) : Prop :=
  ∃ i1 la lo, do_parse_lat_lon i = .ok (i1, (la, lo)) ∧
  ∃ i2 c1, charP ',' i1 = .ok (i2, c1) ∧
  ∃ i3 t, parse_hms i2 = .ok (i3, t) ∧
  ∃ i4 tr, takeUntilComma i3 = .ok (i4, tr) ∧
  ∃ i5 c2, charP ',' i4 = .ok (i5, c2) ∧
  ∃ i6 st, statusP i5 = .ok (i6, st) ∧
  ∃ i7 c3, charP ',' i6 = .ok (i7, c3) ∧
  ∃ m, modeP i7 = .ok (r, m) ∧ d = ⟨la, lo, t, st, m⟩

/-- Some stage of `do_parse_gll` fails with error `e`, and every stage
before it succeeds: the decoder surfaces the first error, in field order,
and nothing after the failing field is parsed. -/
def GllFirstErr (i : Input) (e : NomError) : Prop :=
  do_parse_lat_lon i = .error e ∨
  ∃ i1 la lo, do_parse_lat_lon i = .ok (i1, (la, lo)) ∧
    (charP ',' i1 = .error e ∨
     ∃ i2 c1, charP ',' i1 = .ok (i2, c1) ∧
       (parse_hms i2 = .error e ∨
        ∃ i3 t, parse_hms i2 = .ok (i3, t) ∧
          (takeUntilComma i3 = .error e ∨
           ∃ i4 tr, takeUntilComma i3 = .ok (i4, tr) ∧
             (charP ',' i4 = .error e ∨
              ∃ i5 c2, charP ',' i4 = .ok (i5, c2) ∧
                (statusP i5 = .error e ∨
                 ∃ i6 st, statusP i5 = .ok (i6, st) ∧
                   (charP ',' i6 = .error e ∨
                    ∃ i7 c3, charP ',' i6 = .ok (i7, c3) ∧
                      modeP i7 = .error e))))))

theorem gll_ok_stages (i r : Input) (d : GllData)
    (h : do_parse_gll i = .ok (r, d)) : GllStagesOk i r d := by
  unfold do_parse_gll at h
  cases h1 : do_parse_lat_lon i with
  | error e => simp only [h1] at h; exact Except.noConfusion h
  | ok p =>
    obtain ⟨i1, la, lo⟩ := p
    simp only [h1] at h
    cases h2 : charP ',' i1 with
    | error e => simp only [h2] at h; exact Except.noConfusion h
    | ok p =>
      obtain ⟨i2, c1⟩ := p
      simp only [h2] at h
      cases h3 : parse_hms i2 with
      | error e => simp only [h3] at h; exact Except.noConfusion h
      | ok p =>
        obtain ⟨i3, t⟩ := p
        simp only [h3] at h
        cases h4 : takeUntilComma i3 with
        | error e => simp only [h4] at h; exact Except.noConfusion h
        | ok p =>
          obtain ⟨i4, tr⟩ := p
          simp only [h4] at h
          cases h5 : charP ',' i4 with
          | error e => simp only [h5] at h; exact Except.noConfusion h
          | ok p =>
            obtain ⟨i5, c2⟩ := p
            simp only [h5] at h
            cases h6 : statusP i5 with
            | error e => simp only [h6] at h; exact Except.noConfusion h
            | ok p =>
              obtain ⟨i6, st⟩ := p
              simp only [h6] at h
              cases h7 : charP ',' i6 with
              | error e => simp only [h7] at h; exact Except.noConfusion h
              | ok p =>
                obtain ⟨i7, c3⟩ := p
                simp only [h7] at h
                cases h8 : modeP i7 with
                | error e => simp only [h8] at h; exact Except.noConfusion h
                | ok p =>
                  obtain ⟨i8, m⟩ := p
                  simp only [h8, Except.ok.injEq, Prod.mk.injEq] at h
                  obtain ⟨hi, hd⟩ := h
                  subst hi
                  exact ⟨i1, la, lo, h1, i2, c1, h2, i3, t, h3, i4, tr, h4,
                    i5, c2, h5, i6, st, h6, i7, c3, h7, m, h8, hd.symm⟩

theorem gll_stages_build (i r : Input) (d : GllData)
    (h : GllStagesOk i r d) : do_parse_gll i = .ok (r, d) := by
  obtain ⟨i1, la, lo, h1, i2, c1, h2, i3, t, h3, i4, tr, h4,
    i5, c2, h5, i6, st, h6, i7, c3, h7, m, h8, hd⟩ := h
  subst hd
  simp only [do_parse_gll, h1, h2, h3, h4, h5, h6, h7, h8]

theorem gll_err_first (i : Input) (e : NomError)
    (h : do_parse_gll i = .error e) : GllFirstErr i e := by
  unfold do_parse_gll at h
  unfold GllFirstErr
  cases h1 : do_parse_lat_lon i with
  | error e1 =>
    simp only [h1, Except.error.injEq] at h
    exact Or.inl (by rw [h])
  | ok p =>
    obtain ⟨i1, la, lo⟩ := p
    simp only [h1] at h
    refine Or.inr ⟨i1, la, lo, rfl, ?_⟩
    cases h2 : charP ',' i1 with
    | error e1 =>
      simp only [h2, Except.error.injEq] at h
      exact Or.inl (by rw [h])
    | ok p =>
      obtain ⟨i2, c1⟩ := p
      simp only [h2] at h
      refine Or.inr ⟨i2, c1, rfl, ?_⟩
      cases h3 : parse_hms i2 with
      | error e1 =>
        simp only [h3, Except.error.injEq] at h
        exact Or.inl (by rw [h])
      | ok p =>
        obtain ⟨i3, t⟩ := p
        simp only [h3] at h
        refine Or.inr ⟨i3, t, rfl, ?_⟩
        cases h4 : takeUntilComma i3 with
        | error e1 =>
          simp only [h4, Except.error.injEq] at h
          exact Or.inl (by rw [h])
        | ok p =>
          obtain ⟨i4, tr⟩ := p
          simp only [h4] at h
          refine Or.inr ⟨i4, tr, rfl, ?_⟩
          cases h5 : charP ',' i4 with
          | error e1 =>
            simp only [h5, Except.error.injEq] at h
            exact Or.inl (by rw [h])
          | ok p =>
            obtain ⟨i5, c2⟩ := p
            simp only [h5] at h
            refine Or.inr ⟨i5, c2, rfl, ?_⟩
            cases h6 : statusP i5 with
            | error e1 =>
              simp only [h6, Except.error.injEq] at h
              exact Or.inl (by rw [h])
            | ok p =>
              obtain ⟨i6, st⟩ := p
              simp only [h6] at h
              refine Or.inr ⟨i6, st, rfl, ?_⟩
              cases h7 : charP ',' i6 with
              | error e1 =>
                simp only [h7, Except.error.injEq] at h
                exact Or.inl (by rw [h])
              | ok p =>
                obtain ⟨i7, c3⟩ := p
                simp only [h7] at h
                refine Or.inr ⟨i7, c3, rfl, ?_⟩
                cases h8 : modeP i7 with
                | error e1 =>
                  simp only [h8, Except.error.injEq] at h
                  exact (by rw [h])
                | ok p =>
                  simp only [h8] at h
                  exact Except.noConfusion h

/-! ## Append stability

Every combinator used by the decoder consumes a prefix it determines
without looking past it, so a successful parse is unaffected by bytes
appended to the input.  The mode field needs its `some` case: a present
mode character is consumed the same way, so the successful record and the
leftover shift by the appended suffix. -/

theorem charP_append (c : Char) (a r : Input) (v : Char) (X : Input)
    (h : charP c a = .ok (r, v)) : charP c (a ++ X) = .ok (r ++ X, v) := by
  cases a with
  | nil => exact Except.noConfusion h
  | cons x xs =>
    unfold charP at h ⊢
    by_cases hx : x = c
    · simp only [if_pos hx, Except.ok.injEq, Prod.mk.injEq] at h
      obtain ⟨hr, hv⟩ := h
      subst hr hv
      simp [hx]
    · simp only [if_neg hx] at h
      exact Except.noConfusion h

theorem oneOf_append (cl : List Char) (a r : Input) (v : Char) (X : Input)
    (h : oneOf cl a = .ok (r, v)) : oneOf cl (a ++ X) = .ok (r ++ X, v) := by
  cases a with
  | nil => exact Except.noConfusion h
  | cons x xs =>
    unfold oneOf at h ⊢
    by_cases hx : x ∈ cl
    · simp only [if_pos hx, Except.ok.injEq, Prod.mk.injEq] at h
      obtain ⟨hr, hv⟩ := h
      subst hr hv
      simp [hx]
    · simp only [if_neg hx] at h
      exact Except.noConfusion h

theorem splitAtComma_append (a x y X : Input)
    (h : splitAtComma a = some (x, y)) :
    splitAtComma (a ++ X) = some (x, y ++ X) := by
  induction a generalizing x y with
  | nil => exact Option.noConfusion h
  | cons c rest ih =>
    rw [List.cons_append]
    by_cases hc : c = ','
    · simp only [splitAtComma, if_pos hc, Option.some.injEq, Prod.mk.injEq] at h
      obtain ⟨hx, hy⟩ := h
      subst hx hy
      simp [splitAtComma, if_pos hc]
    · simp only [splitAtComma, if_neg hc] at h ⊢
      cases hr : splitAtComma rest with
      | none => simp only [hr] at h; exact Option.noConfusion h
      | some p =>
        obtain ⟨a1, b1⟩ := p
        simp only [hr, Option.some.injEq, Prod.mk.injEq] at h
        obtain ⟨hx, hy⟩ := h
        subst hx hy
        simp only [ih a1 b1 hr]

theorem takeUntilComma_append (a r t X : Input)
    (h : takeUntilComma a = .ok (r, t)) :
    takeUntilComma (a ++ X) = .ok (r ++ X, t) := by
  unfold takeUntilComma at h ⊢
  cases hs : splitAtComma a with
  | none => simp only [hs] at h; exact Except.noConfusion h
  | some p =>
    obtain ⟨x, y⟩ := p
    simp only [hs, Except.ok.injEq, Prod.mk.injEq] at h
    obtain ⟨hy, hx⟩ := h
    subst hy hx
    simp only [splitAtComma_append a x y X hs]

theorem parse_hms_append (a r : Input) (v : NaiveTime) (X : Input)
    (h : parse_hms a = .ok (r, v)) : parse_hms (a ++ X) = .ok (r ++ X, v) := by
  rcases a with _ | ⟨c1, _ | ⟨c2, _ | ⟨c3, _ | ⟨c4, _ | ⟨c5, _ | ⟨c6, rest⟩⟩⟩⟩⟩⟩
  all_goals try exact Except.noConfusion h
  have hX : (c1 :: c2 :: c3 :: c4 :: c5 :: c6 :: rest) ++ X
      = c1 :: c2 :: c3 :: c4 :: c5 :: c6 :: (rest ++ X) := rfl
  rw [hX]
  simp only [parse_hms] at h ⊢
  split at h
  case isTrue hd =>
    split at h
    case isTrue hr2 =>
      simp only [Except.ok.injEq, Prod.mk.injEq] at h
      obtain ⟨hrr, hv⟩ := h
      subst hrr hv
      rw [if_pos hd, if_pos hr2]
    case isFalse hr2 => exact Except.noConfusion h
  case isFalse hd => exact Except.noConfusion h

theorem do_parse_lat_lon_append (a r : Input) (la lo : ℚ) (X : Input)
    (h : do_parse_lat_lon a = .ok (r, (la, lo))) :
    do_parse_lat_lon (a ++ X) = .ok (r ++ X, (la, lo)) := by
  unfold do_parse_lat_lon at h
  cases h1 : takeUntilComma a with
  | error e => simp only [h1] at h; exact Except.noConfusion h
  | ok p =>
    obtain ⟨i1, latTok⟩ := p
    simp only [h1] at h
    cases h2 : charP ',' i1 with
    | error e => simp only [h2] at h; exact Except.noConfusion h
    | ok p =>
      obtain ⟨i2, c1⟩ := p
      simp only [h2] at h
      cases h3 : oneOf ['N', 'S'] i2 with
      | error e => simp only [h3] at h; exact Except.noConfusion h
      | ok p =>
        obtain ⟨i3, latDir⟩ := p
        simp only [h3] at h
        cases h4 : charP ',' i3 with
        | error e => simp only [h4] at h; exact Except.noConfusion h
        | ok p =>
          obtain ⟨i4, c2⟩ := p
          simp only [h4] at h
          cases h5 : takeUntilComma i4 with
          | error e => simp only [h5] at h; exact Except.noConfusion h
          | ok p =>
            obtain ⟨i5, lonTok⟩ := p
            simp only [h5] at h
            cases h6 : charP ',' i5 with
            | error e => simp only [h6] at h; exact Except.noConfusion h
            | ok p =>
              obtain ⟨i6, c3⟩ := p
              simp only [h6] at h
              cases h7 : oneOf ['E', 'W'] i6 with
              | error e => simp only [h7] at h; exact Except.noConfusion h
              | ok p =>
                obtain ⟨i7, lonDir⟩ := p
                simp only [h7] at h
                unfold do_parse_lat_lon
                simp only [takeUntilComma_append a i1 latTok X h1,
                  charP_append ',' i1 i2 c1 X h2,
                  oneOf_append ['N', 'S'] i2 i3 latDir X h3,
                  charP_append ',' i3 i4 c2 X h4,
                  takeUntilComma_append i4 i5 lonTok X h5,
                  charP_append ',' i5 i6 c3 X h6,
                  oneOf_append ['E', 'W'] i6 i7 lonDir X h7]
                cases h8 : parseCoordTok latTok with
                | none => simp only [h8] at h; exact Except.noConfusion h
                | some p =>
                  obtain ⟨lai, laf⟩ := p
                  simp only [h8] at h
                  cases h9 : parseCoordTok lonTok with
                  | none => simp only [h9] at h; exact Except.noConfusion h
                  | some p =>
                    obtain ⟨loi, lof⟩ := p
                    simp only [h9, Except.ok.injEq, Prod.mk.injEq] at h
                    obtain ⟨hr, hla, hlo⟩ := h
                    subst hr hla hlo
                    simp only [h8, h9]

theorem mapP_oneOf_append {β : Type} (cl : List Char) (f : Char → β)
    (a r : Input) (v : β) (X : Input)
    (h : mapP (oneOf cl) f a = .ok (r, v)) :
    mapP (oneOf cl) f (a ++ X) = .ok (r ++ X, v) := by
  unfold mapP at h ⊢
  cases h1 : oneOf cl a with
  | error e => simp only [h1] at h; exact Except.noConfusion h
  | ok p =>
    obtain ⟨r1, c⟩ := p
    simp only [h1, Except.ok.injEq, Prod.mk.injEq] at h
    obtain ⟨hr, hv⟩ := h
    subst hr hv
    simp only [oneOf_append cl a r1 c X h1]

theorem statusP_append (a r : Input) (v : GLLDataStatus) (X : Input)
    (h : statusP a = .ok (r, v)) : statusP (a ++ X) = .ok (r ++ X, v) := by
  unfold statusP at h ⊢
  exact mapP_oneOf_append ['A', 'V'] GLLDataStatus.fromChar a r v X h

theorem modeP_some_append (a r : Input) (m : PosSystemIndicator) (X : Input)
    (h : modeP a = .ok (r, some m)) : modeP (a ++ X) = .ok (r ++ X, some m) := by
  unfold modeP optP at h ⊢
  cases h1 : mapP (oneOf ['A', 'D', 'E', 'M']) PosSystemIndicator.fromChar a with
  | error e =>
    simp only [h1, Except.ok.injEq, Prod.mk.injEq] at h
    exact absurd h.2 (by simp)
  | ok p =>
    obtain ⟨r1, v⟩ := p
    simp only [h1, Except.ok.injEq, Prod.mk.injEq, Option.some.injEq] at h
    obtain ⟨hr, hv⟩ := h
    subst hr
    subst hv
    simp only [mapP_oneOf_append ['A', 'D', 'E', 'M'] PosSystemIndicator.fromChar
      a r1 v X h1]

/-- A successful decode whose mode field is present is append-stable: extra
bytes after the consumed payload shift into the leftover unchanged. -/
theorem do_parse_gll_append (p X r : Input) (d : GllData) (m : PosSystemIndicator)
    (h : do_parse_gll p = .ok (r, d)) (hm : d.mode = some m) :
    do_parse_gll (p ++ X) = .ok (r ++ X, d) := by
  obtain ⟨i1, la, lo, h1, i2, c1, h2, i3, t, h3, i4, tr, h4,
    i5, c2, h5, i6, st, h6, i7, c3, h7, mo, h8, hd⟩ := gll_ok_stages p r d h
  subst hd
  simp only at hm
  subst hm
  exact gll_stages_build (p ++ X) (r ++ X) _
    ⟨i1 ++ X, la, lo, do_parse_lat_lon_append p i1 la lo X h1,
     i2 ++ X, c1, charP_append ',' i1 i2 c1 X h2,
     i3 ++ X, t, parse_hms_append i2 i3 t X h3,
     i4 ++ X, tr, takeUntilComma_append i3 i4 tr X h4,
     i5 ++ X, c2, charP_append ',' i4 i5 c2 X h5,
     i6 ++ X, st, statusP_append i5 i6 st X h6,
     i7 ++ X, c3, charP_append ',' i6 i7 c3 X h7,
     some m, modeP_some_append i7 r m X h8, rfl⟩

/-! ## Concrete inputs

`pay7` is the payload of the repository's own `test_parse_gpgll` test
(seven fields — the `.00` decimal trailer is part of the time field).
`pay8` is the eight-field variant of the specification's concrete
scenario 1, with an empty field between the time and the status.  `payB`
carries the out-of-alphabet status letter `B`.  `payJ` is `pay7` with the
ignored decimal trailer replaced by `junk`. -/

def pay7 : Input := "5107.0013414,N,11402.3279144,W,205412.00,A,A".toList

def pay8 : Input := "5107.0013414,N,11402.3279144,W,205412.00,,A,A".toList

def payB : Input := "0100.0,N,00100.0,E,120000.0,B,A".toList

def payJ : Input := "5107.0013414,N,11402.3279144,W,205412junk,A,A".toList

/-- The latitude decoded from `pay7`. -/
def lat7 : ℚ := coordVal ['5', '1', '0', '7'] ['0', '0', '1', '3', '4', '1', '4'] 'N' 'S'

/-- The longitude decoded from `pay7`. -/
def lon7 : ℚ := coordVal ['1', '1', '4', '0', '2'] ['3', '2', '7', '9', '1', '4', '4'] 'W' 'W'

/-- The fix time decoded from `pay7`: 20:54:12.000. -/
def t7 : NaiveTime := ⟨20, 54, 12, 0⟩

/-! ## Remaining helpers -/

theorem GLLDataStatus_fromChar_ne_A (c : Char) (hc : c ≠ 'A') :
    GLLDataStatus.fromChar c = .Invalid := by
  unfold GLLDataStatus.fromChar
  split
  · exact absurd rfl hc
  · rfl

/-- Whatever the decode from the status position returns on success, its
status field is the one the status parser produced. -/
theorem gllAtStatus_data_state (la lo : ℚ) (t : NaiveTime) (r s' rest : Input)
    (st : GLLDataStatus) (d : GllData)
    (hst : statusP r = .ok (s', st))
    (hok : gllAtStatus la lo t r = .ok (rest, d)) : d.data_state = st := by
  unfold gllAtStatus at hok
  simp only [hst] at hok
  cases hc : charP ',' s' with
  | error e => simp only [hc] at hok; exact Except.noConfusion hok
  | ok p =>
    obtain ⟨i3, c⟩ := p
    simp only [hc] at hok
    unfold gllAtMode at hok
    cases hm : modeP i3 with
    | error e => simp only [hm] at hok; exact Except.noConfusion hok
    | ok p =>
      obtain ⟨i4, mo⟩ := p
      simp only [hm, Except.ok.injEq, Prod.mk.injEq] at hok
      obtain ⟨-, hd⟩ := hok
      rw [← hd]

/-! ## Claims -/

/-- C1: for every payload reaching the status position, the status field
accepts exactly `A` and `V`: `A` yields `data_state = Valid`, `V` yields
`Invalid`, and any other character (or end of input) at the status
position makes the whole decode fail with a parse error rather than
defaulting. -/
theorem c1_status_closed_alphabet (i r : Input) (la lo : ℚ) (t : NaiveTime)
    (h : gllStatusPos i = .ok (r, ((la, lo), t))) :
    (∀ s, r = 'A' :: s → statusP r = .ok (s, .Valid) ∧
      ∀ rest d, do_parse_gll i = .ok (rest, d) → d.data_state = .Valid) ∧
    (∀ s, r = 'V' :: s → statusP r = .ok (s, .Invalid) ∧
      ∀ rest d, do_parse_gll i = .ok (rest, d) → d.data_state = .Invalid) ∧
    (∀ c s, r = c :: s → c ≠ 'A' → c ≠ 'V' →
      do_parse_gll i = .error ⟨c :: s, .OneOf⟩) ∧
    (r = [] → do_parse_gll i = .error ⟨[], .OneOf⟩) := by
  have hfac := do_parse_gll_factor_status i r la lo t h
  refine ⟨?_, ?_, ?_, ?_⟩
  · intro s hs
    subst hs
    refine ⟨statusP_cons_A s, ?_⟩
    intro rest d hok
    rw [hfac] at hok
    exact gllAtStatus_data_state la lo t _ s rest .Valid d (statusP_cons_A s) hok
  · intro s hs
    subst hs
    refine ⟨statusP_cons_V s, ?_⟩
    intro rest d hok
    rw [hfac] at hok
    exact gllAtStatus_data_state la lo t _ s rest .Invalid d (statusP_cons_V s) hok
  · intro c s hcs hA hV
    subst hcs
    rw [hfac]
    unfold gllAtStatus
    simp only [statusP_cons_outside c s hA hV]
  · intro hnil
    subst hnil
    rw [hfac]
    unfold gllAtStatus
    simp only [statusP_nil]

theorem c1_status_closed_alphabet_witness :
    statusP ['A', ',', 'A'] = .ok ([',', 'A'], .Valid) ∧
    GllData.data_state ⟨lat7, lon7, t7, .Valid, some .Autonomous⟩ = .Valid :=
  ⟨((c1_status_closed_alphabet pay7 ['A', ',', 'A'] lat7 lon7 t7 rfl).1
      [',', 'A'] rfl).1,
   ((c1_status_closed_alphabet pay7 ['A', ',', 'A'] lat7 lon7 t7 rfl).1
      [',', 'A'] rfl).2 [] ⟨lat7, lon7, t7, .Valid, some .Autonomous⟩ rfl⟩

/-- C2 counterexample: the decoder does fail on an unrecognized status
letter.  On the payload `0100.0,N,00100.0,E,120000.0,B,A` the status token
is `B` (≠ `A`), and the decode errors out at the status position instead
of degrading to `Invalid`. -/
theorem c2_status_letter_B_fails :
    do_parse_gll payB = .error ⟨['B', ',', 'A'], .OneOf⟩ ∧
    parse_gll ⟨['G', 'L', 'L'], payB⟩ =
      .error (.ParsingError ⟨['B', ',', 'A'], .OneOf⟩) :=
  ⟨rfl, rfl⟩

/-- C2 amended: within the accepted status alphabet `{A, V}`, any token
other than `A` (that is, `V`) maps to `Invalid`; the character conversion
`GLLDataStatus::from` by itself never fails and sends every character
other than `A` to `Invalid`; but the status sub-grammar rejects characters
outside `{A, V}`, so the decoder does fail on those. -/
theorem c2_status_degrades_within_alphabet :
    (∀ c, c ≠ 'A' → GLLDataStatus.fromChar c = .Invalid) ∧
    (∀ s, statusP ('V' :: s) = .ok (s, .Invalid)) ∧
    (∀ c s, c ≠ 'A' → c ≠ 'V' → statusP (c :: s) = .error ⟨c :: s, .OneOf⟩) :=
  ⟨GLLDataStatus_fromChar_ne_A, statusP_cons_V,
   fun c s hA hV => statusP_cons_outside c s hA hV⟩

theorem c2_status_degrades_within_alphabet_witness :
    GLLDataStatus.fromChar 'B' = .Invalid ∧
    statusP ['V'] = .ok ([], .Invalid) ∧
    statusP ['B'] = .error ⟨['B'], .OneOf⟩ :=
  ⟨c2_status_degrades_within_alphabet.1 'B' (by decide),
   c2_status_degrades_within_alphabet.2.1 [],
   c2_status_degrades_within_alphabet.2.2 'B' [] (by decide) (by decide)⟩

/-- C3: a message identifier other than `"GLL"` is rejected with
`WrongSentenceHeader` carrying expected `"GLL"` and the found identifier,
and the result does not depend on the payload — no field of it is
examined. -/
theorem c3_wrong_header_rejected (s : NmeaSentence)
    (h : s.message_id ≠ ['G', 'L', 'L']) :
    parse_gll s = .error (.WrongSentenceHeader ['G', 'L', 'L'] s.message_id) ∧
    ∀ d2 : Input, parse_gll ⟨s.message_id, d2⟩ = parse_gll s := by
  constructor
  · unfold parse_gll
    rw [if_pos h]
  · intro d2
    unfold parse_gll
    rw [if_pos h]
    rw [if_pos h]

theorem c3_wrong_header_rejected_witness :
    parse_gll ⟨['G', 'L', 'X'], pay7⟩ =
      .error (.WrongSentenceHeader ['G', 'L', 'L'] ['G', 'L', 'X']) :=
  (c3_wrong_header_rejected ⟨['G', 'L', 'X'], pay7⟩ (by decide)).1

/-- C4: for every payload reaching the mode position, the mode field is
tolerant: `A`, `D`, `E`, `M` map to their variants, while end of input or
any character outside `{A, D, E, M}` yields `mode = none` with the decode
still succeeding. -/
theorem c4_mode_field_tolerant (i r : Input) (la lo : ℚ) (t : NaiveTime)
    (st : GLLDataStatus)
    (h : gllModePos i = .ok (r, (((la, lo), t), st))) :
    (∀ s, r = 'A' :: s → do_parse_gll i = .ok (s, ⟨la, lo, t, st, some .Autonomous⟩)) ∧
    (∀ s, r = 'D' :: s → do_parse_gll i = .ok (s, ⟨la, lo, t, st, some .Differential⟩)) ∧
    (∀ s, r = 'E' :: s → do_parse_gll i = .ok (s, ⟨la, lo, t, st, some .EstimatedMode⟩)) ∧
    (∀ s, r = 'M' :: s → do_parse_gll i = .ok (s, ⟨la, lo, t, st, some .ManualInput⟩)) ∧
    (r = [] → do_parse_gll i = .ok ([], ⟨la, lo, t, st, none⟩)) ∧
    (∀ c s, r = c :: s → c ∉ (['A', 'D', 'E', 'M'] : List Char) →
      do_parse_gll i = .ok (c :: s, ⟨la, lo, t, st, none⟩)) := by
  have hfac := do_parse_gll_factor_mode i r la lo t st h
  refine ⟨?_, ?_, ?_, ?_, ?_, ?_⟩
  · intro s hs
    subst hs
    rw [hfac]
    unfold gllAtMode
    simp only [modeP_cons_A]
  · intro s hs
    subst hs
    rw [hfac]
    unfold gllAtMode
    simp only [modeP_cons_D]
  · intro s hs
    subst hs
    rw [hfac]
    unfold gllAtMode
    simp only [modeP_cons_E]
  · intro s hs
    subst hs
    rw [hfac]
    unfold gllAtMode
    simp only [modeP_cons_M]
  · intro hnil
    subst hnil
    rw [hfac]
    unfold gllAtMode
    simp only [modeP_nil]
  · intro c s hcs hmem
    subst hcs
    rw [hfac]
    unfold gllAtMode
    simp only [modeP_cons_outside c s hmem]

theorem c4_mode_field_tolerant_witness :
    do_parse_gll pay7 = .ok ([], ⟨lat7, lon7, t7, .Valid, some .Autonomous⟩) :=
  (c4_mode_field_tolerant pay7 ['A'] lat7 lon7 t7 .Valid rfl).1 [] rfl

/-- C5 counterexample: the specification's concrete scenario 1 payload
`5107.0013414,N,11402.3279144,W,205412.00,,A,A` has an empty field between
the time and the status, so the status parser meets `,` and the decode
fails instead of succeeding. -/
theorem c5_eight_field_payload_fails :
    parse_gll ⟨['G', 'L', 'L'], pay8⟩ =
      .error (.ParsingError ⟨[',', 'A', ',', 'A'], .OneOf⟩) := rfl

/-- C5 amended: the scenario holds for the seven-field payload
`5107.0013414,N,11402.3279144,W,205412.00,A,A` (the repository's own test
vector — the decimal trailer `.00` belongs to the time field, there is no
extra empty field): latitude ≈ 51.1167, longitude ≈ -114.0388, fix time
20:54:12.000, status `Valid`, mode `Some(Autonomous)`. -/
theorem c5_scenario_seven_fields :
    parse_gll ⟨['G', 'L', 'L'], pay7⟩ =
      .ok ⟨lat7, lon7, t7, .Valid, some .Autonomous⟩ ∧
    lat7 = 51 + (7 + 13414 / 10 ^ 7) / 60 ∧
    lon7 = -(114 + (2 + 3279144 / 10 ^ 7) / 60) ∧
    |lat7 - 511167 / 10 ^ 4| < 1 / 10 ^ 4 ∧
    |lon7 + 1140388 / 10 ^ 4| < 1 / 10 ^ 4 ∧
    t7 = ⟨20, 54, 12, 0⟩ := by
  have hN : ('N' : Char) ≠ 'S' := by decide
  have hla : lat7 = 51 + (7 + 13414 / 10 ^ 7) / 60 := by
    norm_num [lat7, coordVal, digitsVal, digitVal, hN]
  have hlo : lon7 = -(114 + (2 + 3279144 / 10 ^ 7) / 60) := by
    norm_num [lon7, coordVal, digitsVal, digitVal]
  refine ⟨rfl, hla, hlo, ?_, ?_, rfl⟩
  · rw [hla, abs_lt]
    constructor <;> norm_num
  · rw [hlo, abs_lt]
    constructor <;> norm_num

/-- C6: the decimal trailer after the fix time is consumed up to the next
comma and never validated or used — two inputs that reach the trailer in
the same state and differ only in the comma-free trailer content decode to
the same result (both fail identically or both return the same record). -/
theorem c6_trailer_ignored (i1 i2 : Input) (la lo : ℚ) (t : NaiveTime)
    (t1 t2 s : Input) (h1c : ',' ∉ t1) (h2c : ',' ∉ t2)
    (h1 : gllTimeP i1 = .ok (t1 ++ ',' :: s, ((la, lo), t)))
    (h2 : gllTimeP i2 = .ok (t2 ++ ',' :: s, ((la, lo), t))) :
    do_parse_gll i1 = do_parse_gll i2 := by
  rw [do_parse_gll_factor_time i1 _ la lo t h1,
    do_parse_gll_factor_time i2 _ la lo t h2]
  unfold gllAfterTime
  simp only [takeUntilComma_of_not_mem t1 s h1c, takeUntilComma_of_not_mem t2 s h2c]

theorem c6_trailer_ignored_witness : do_parse_gll pay7 = do_parse_gll payJ :=
  c6_trailer_ignored pay7 payJ lat7 lon7 t7 ['.', '0', '0'] ['j', 'u', 'n', 'k']
    ['A', ',', 'A'] (by decide) (by decide) rfl rfl

/-- C7: the decode is atomic with first-error semantics — for every input
it either succeeds with a record whose five fields are exactly the outputs
of the eight stages run in left-to-right order, or fails with the error of
the first failing stage, every earlier stage having succeeded; no partial
record exists and no parsing continues past the first failure. -/
theorem c7_decode_atomic_first_error (i : Input) :
    (∃ r d, do_parse_gll i = .ok (r, d) ∧ GllStagesOk i r d) ∨
    (∃ e, do_parse_gll i = .error e ∧ GllFirstErr i e) := by
  cases h : do_parse_gll i with
  | ok p =>
    obtain ⟨r, d⟩ := p
    exact Or.inl ⟨r, d, rfl, gll_ok_stages i r d h⟩
  | error e =>
    exact Or.inr ⟨e, rfl, gll_err_first i e h⟩

/-- C8: the decode is deterministic and referentially transparent — it is
a pure function of the message identifier bytes and payload bytes, so
equal inputs give equal results. -/
theorem c8_decode_deterministic (s1 s2 : NmeaSentence)
    (hid : s1.message_id = s2.message_id) (hd : s1.data = s2.data) :
    parse_gll s1 = parse_gll s2 := by
  cases s1 with
  | mk id1 d1 =>
    cases s2 with
    | mk id2 d2 =>
      simp only at hid hd
      subst hid hd
      rfl

theorem c8_decode_deterministic_witness :
    parse_gll ⟨['G', 'L', 'L'], pay7⟩ = parse_gll ⟨['G', 'L', 'L'], pay7⟩ :=
  c8_decode_deterministic ⟨['G', 'L', 'L'], pay7⟩ ⟨['G', 'L', 'L'], pay7⟩ rfl rfl

/-- C9: a successful `parse_gll` never returns `mode = Some(DataNotValid)`:
the mode alternative only accepts `A`, `D`, `E`, `M`, so that variant is
unreachable through the public decode even though the char conversion maps
`N` (and anything unrecognized) to it. -/
theorem c9_mode_never_data_not_valid (s : NmeaSentence) (d : GllData)
    (h : parse_gll s = .ok d) : d.mode ≠ some .DataNotValid := by
  unfold parse_gll at h
  by_cases hid : s.message_id ≠ ['G', 'L', 'L']
  · rw [if_pos hid] at h
    exact Except.noConfusion h
  · rw [if_neg hid] at h
    cases hg : do_parse_gll s.data with
    | error e => simp only [hg] at h; exact Except.noConfusion h
    | ok p =>
      obtain ⟨r, d2⟩ := p
      simp only [hg, Except.ok.injEq] at h
      subst h
      obtain ⟨i1, la, lo, h1, i2, c1, h2, i3, t, h3, i4, tr, h4,
        i5, c2, h5, i6, st, h6, i7, c3, h7, m, h8, hd2⟩ :=
        gll_ok_stages s.data r d2 hg
      have hm := modeP_ok_not_dnv i7 r m h8
      rw [hd2]
      exact hm

theorem c9_mode_never_data_not_valid_witness :
    GllData.mode ⟨lat7, lon7, t7, .Valid, some .Autonomous⟩ ≠ some .DataNotValid :=
  c9_mode_never_data_not_valid ⟨['G', 'L', 'L'], pay7⟩
    ⟨lat7, lon7, t7, .Valid, some .Autonomous⟩ rfl

/-- C10: `parse_gll` does not require the payload to be fully consumed —
when a payload decodes with a present mode, appending any bytes leaves the
decoded record unchanged (the extra bytes only extend the leftover, which
`parse_gll` discards). -/
theorem c10_trailing_bytes_ignored (p X r : Input) (d : GllData)
    (m : PosSystemIndicator)
    (h : do_parse_gll p = .ok (r, d)) (hm : d.mode = some m) :
    do_parse_gll (p ++ X) = .ok (r ++ X, d) ∧
    parse_gll ⟨['G', 'L', 'L'], p ++ X⟩ = .ok d := by
  have happ := do_parse_gll_append p X r d m h hm
  refine ⟨happ, ?_⟩
  unfold parse_gll
  rw [if_neg (fun hx => hx rfl)]
  simp only [happ]

theorem c10_trailing_bytes_ignored_witness :
    do_parse_gll (pay7 ++ [',', 'X', 'Y']) =
      .ok ([',', 'X', 'Y'], ⟨lat7, lon7, t7, .Valid, some .Autonomous⟩) ∧
    parse_gll ⟨['G', 'L', 'L'], pay7 ++ [',', 'X', 'Y']⟩ =
      .ok ⟨lat7, lon7, t7, .Valid, some .Autonomous⟩ :=
  c10_trailing_bytes_ignored pay7 [',', 'X', 'Y'] []
    ⟨lat7, lon7, t7, .Valid, some .Autonomous⟩ .Autonomous rfl rfl

end Nmea
